import Mathlib

/-!
# Verification of the simply-openapi-controllers core

Shallow embedding of the repository's core request/response pipeline pieces:

* the value coercer (`createValueProcessor`),
* the reference resolver (`resolveReference`),
* the content-type matcher (`pickContentType`),
* the method handler factory (`createMethodHandlerFromSpec` and its default
  controller/handler resolvers), and
* the decorator-side argument registration (`setMethodParameterType`),

together with theorems settling the frozen specification claims about them.
JavaScript values are modelled by an inductive `Json` type (including the
JavaScript `undefined`), thrown exceptions by `Except`, and the external
schema-validation engine (ajv) by an abstract compile function.
-/

namespace SOC

/-- The JavaScript value domain manipulated by the embedded code.  `undef`
models the JavaScript `undefined`; objects are ordered association lists of
string keys (keys are unique in all values we construct). -/
inductive Json : Type where
  | null : Json
  | undef : Json
  | bool : Bool → Json
  | num : Int → Json
  | str : String → Json
  | arr : List Json → Json
  | obj : List (String × Json) → Json

mutual

/-- Structural boolean equality on JavaScript values. -/
def Json.beq : Json → Json → Bool
  | Json.null, Json.null => true
  | Json.undef, Json.undef => true
  | Json.bool a, Json.bool b => a == b
  | Json.num a, Json.num b => a == b
  | Json.str a, Json.str b => a == b
  | Json.arr a, Json.arr b => Json.beqList a b
  | Json.obj a, Json.obj b => Json.beqFields a b
  | _, _ => false

/-- Elementwise boolean equality on arrays of JavaScript values. -/
def Json.beqList : List Json → List Json → Bool
  | [], [] => true
  | a :: as, b :: bs => Json.beq a b && Json.beqList as bs
  | _, _ => false

/-- Fieldwise boolean equality on JavaScript object field lists. -/
def Json.beqFields : List (String × Json) → List (String × Json) → Bool
  | [], [] => true
  | (k1, v1) :: as, (k2, v2) :: bs => k1 == k2 && Json.beq v1 v2 && Json.beqFields as bs
  | _, _ => false

end

/-- First-match lookup in an association list, modelling JavaScript object
property lookup (`record[key]`). -/
def lookupEntry {α : Type} : List (String × α) → String → Option α
  | [], _ => none
  | (k, v) :: rest, key => if k = key then some v else lookupEntry rest key

/-- Property access on a JavaScript object value, `none` when the key is
absent or the value is not an object. -/
def Json.getProp (j : Json) (key : String) : Option Json :=
  match j with
  | Json.obj fields => lookupEntry fields key
  | _ => none

/-- JavaScript property read: `o[key]` evaluates to `undefined` when the key
is absent. -/
def Json.jsGet (j : Json) (key : String) : Json :=
  (j.getProp key).getD Json.undef

/-! ## Value coercer (`createValueProcessor`, part_001 lines 115-135) -/

/-- One entry of the ajv `validate.errors` list: the instance path locating
the failing value, and a message. -/
structure AjvError where
  instancePath : String
  message : String
deriving DecidableEq

/-- The `ValidationError` thrown by the processor, carrying the ajv error
list (`new ValidationError(validate.errors!)`). -/
structure ValidationError where
  errors : List AjvError
deriving DecidableEq

/-- A compiled ajv validator: given the data, either fails with an error
list or succeeds returning the (possibly coerced-in-place) data. -/
abbrev ValidateFn : Type := Json → Except (List AjvError) Json

/-- The synthetic wrapper schema built by `createValueProcessor`:
`{ type: "object", properties: { value: schema } }`. -/
def syntheticWrapperSchema (schema : Json) : Json :=
  Json.obj [("type", Json.str "object"), ("properties", Json.obj [("value", schema)])]

/-- The wrapped candidate built by the processor: `{ value: candidate }`. -/
def wrapCandidate (value : Json) : Json :=
  Json.obj [("value", value)]

/-- Embedding of `createValueProcessor` (part_001): wrap the schema, compile
the wrapper once, and return a processor that validates `{ value }` and on
success returns the wrapper's (possibly mutated) `value` property; on failure
it throws `ValidationError(validate.errors)`.  The ajv capability is the
`compile` argument; a successful validator run returns the mutated wrapper. -/
def createValueProcessor (compile : Json → ValidateFn) (schema : Json) :
    Json → Except ValidationError Json :=
  let wrappedSchema := syntheticWrapperSchema schema
  let validate := compile wrappedSchema
  fun value =>
    let wrapper := wrapCandidate value
    match validate wrapper with
    | Except.error errs => Except.error (ValidationError.mk errs)
    | Except.ok mutated => Except.ok (mutated.jsGet "value")

/-- Tests whether the first character list leads with the second one. -/
def charsLeadWith : List Char → List Char → Bool
  | _, [] => true
  | [], _ :: _ => false
  | a :: as, b :: bs => a == b && charsLeadWith as bs

/-- Tests whether `s` starts with `lead` (character-wise `String.startsWith`). -/
def strLeadsWith (s lead : String) : Bool :=
  charsLeadWith s.data lead.data

/-- Holds (as `true`) when every reported error path has the synthetic `value` wrapper
segment stripped (i.e. no path is `/value` or starts with `/value/`). -/
def pathsStripped (errs : List AjvError) : Bool :=
  errs.all (fun e => !(e.instancePath == "/value" || strLeadsWith e.instancePath "/value/"))

/-! ### A small concrete validation engine used to exercise the processor

`demoCompile` is a test double for the ajv capability.  It understands the
wrapper schemas the processor builds whose single property schema is
`{ type: "number" }` or `{ type: "string" }`, coerces numeric strings to
numbers in place (as ajv does with `coerceTypes`), and reports ajv-style
errors whose `instancePath` points inside the wrapper (`/value`). -/

/-- Parse a list of decimal digits into a number, `none` on a non-digit. -/
def demoDigitsAux : List Char → Nat → Option Nat
  | [], acc => some acc
  | c :: rest, acc =>
    if '0' ≤ c ∧ c ≤ '9' then demoDigitsAux rest (acc * 10 + (c.toNat - 48))
    else none

/-- Parse a non-empty all-digit string as a (non-negative) integer; a stand-in
for JavaScript numeric-string parsing, sufficient for the demo engine. -/
def demoToInt (s : String) : Option Int :=
  match s.data with
  | [] => none
  | l => (demoDigitsAux l 0).map Int.ofNat

/-- Validate one property value against a property schema, at `path`. -/
def demoValidateProp (schema : Json) (path : String) (value : Json) :
    Except (List AjvError) Json :=
  match schema.getProp "type" with
  | some (Json.str "number") =>
    match value with
    | Json.num n => Except.ok (Json.num n)
    | Json.str s =>
      match demoToInt s with
      | some n => Except.ok (Json.num n)
      | none => Except.error [AjvError.mk path "must be number"]
    | _ => Except.error [AjvError.mk path "must be number"]
  | some (Json.str "string") =>
    match value with
    | Json.str s => Except.ok (Json.str s)
    | _ => Except.error [AjvError.mk path "must be string"]
  | _ => Except.ok value

/-- The demo engine: compiles object schemas of the exact wrapper shape. -/
def demoCompile : Json → ValidateFn :=
  fun schema data =>
    match schema.getProp "properties" with
    | some (Json.obj [("value", propSchema)]) =>
      match data.getProp "value" with
      | some v =>
        match demoValidateProp propSchema "/value" v with
        | Except.ok v2 => Except.ok (Json.obj [("value", v2)])
        | Except.error e => Except.error e
      | none => Except.ok data
    | _ => Except.ok data

/-! ## The caching engine state (for the compile-once property) -/

/-- Membership of a schema in the engine's compiled-schema cache. -/
def jsonListContains (l : List Json) (s : Json) : Bool :=
  l.any (fun t => Json.beq t s)

/-- The schema-validation engine's cache of compiled schemas. -/
structure AjvState where
  compiled : List Json

/-- Modelled from the spec: the schema-validation capability (ajv, an external
collaborator) compiles a schema fragment into a validator and caches compiled
validators per distinct schema for the life of the router; compiling a schema
already in the cache is a cache hit and records nothing new.  The semantics of
the compiled validator stays abstract (`interp`). -/
def ajvCompileCached (interp : Json → ValidateFn) (schema : Json) (st : AjvState) :
    ValidateFn × AjvState :=
  if jsonListContains st.compiled schema then (interp schema, st)
  else (interp schema, AjvState.mk (st.compiled ++ [schema]))

/-- The processor builder `createValueProcessor` run against the caching engine state: it compiles
the synthetic wrapper schema once, at processor-construction time; the
returned processor closure reuses that validator on every coercion and never
touches the engine state again. -/
def createValueProcessorCached (interp : Json → ValidateFn) (schema : Json) (st : AjvState) :
    (Json → Except ValidationError Json) × AjvState :=
  let wrappedSchema := syntheticWrapperSchema schema
  let p := ajvCompileCached interp wrappedSchema st
  (fun value =>
    let wrapper := wrapCandidate value
    match p.1 wrapper with
    | Except.error errs => Except.error (ValidationError.mk errs)
    | Except.ok mutated => Except.ok (mutated.jsGet "value"), p.2)

/-! ## Reference resolver (`resolveReference`, part_002 lines 129-148) -/

/-- Split a character list at a separator character (JavaScript
`String.prototype.split` with a single-character separator). -/
def splitCharAux (sep : Char) : List Char → List Char → List String
  | [], acc => [String.mk acc.reverse]
  | c :: rest, acc =>
    if c = sep then String.mk acc.reverse :: splitCharAux sep rest []
    else splitCharAux sep rest (c :: acc)

/-- JavaScript `s.split(sep)` for a single-character separator. -/
def splitChar (sep : Char) (s : String) : List String :=
  splitCharAux sep s.data []

/-- JavaScript `s.substring(1)`. -/
def strDropOne (s : String) : String := String.mk (s.data.drop 1)

/-- Modelled from the spec: RFC 6901 token unescaping performed by the
external JSON-pointer library (`~1` becomes `/`, then `~0` becomes `~`). -/
def ptrUnescapeChars : List Char → List Char
  | [] => []
  | '~' :: '1' :: rest => '/' :: ptrUnescapeChars rest
  | '~' :: '0' :: rest => '~' :: ptrUnescapeChars rest
  | c :: rest => c :: ptrUnescapeChars rest

/-- Modelled from the spec: `Ptr.parse` of the external JSON-pointer library.
The empty string is the root pointer; any other pointer must begin with `/`
(otherwise parsing throws an invalid-pointer error); the slash-separated
tokens are unescaped. -/
def ptrParse (s : String) : Except String (List String) :=
  if s = "" then Except.ok []
  else if strLeadsWith s "/" = false then
    Except.error ("Invalid JSON pointer: " ++ s)
  else
    Except.ok (((splitChar '/' s).drop 1).map
      (fun t => String.mk (ptrUnescapeChars t.data)))

/-- An all-digit non-empty token read as an array index. -/
def ptrArrayIndex (s : String) : Option Nat :=
  match s.data with
  | [] => none
  | l => demoDigitsAux l 0

/-- Modelled from the spec: `Ptr.eval` of the external JSON-pointer library —
walk the document along the tokens; a token that does not resolve (missing
key, bad or out-of-bounds array index, indexing a primitive) throws, which
`resolveReference` catches. -/
def ptrEval : List String → Json → Except String Json
  | [], doc => Except.ok doc
  | tok :: rest, Json.obj fields =>
    match lookupEntry fields tok with
    | some v => ptrEval rest v
    | none => Except.error ("Token " ++ tok ++ " not found")
  | tok :: rest, Json.arr elems =>
    match ptrArrayIndex tok with
    | some i =>
      match elems.get? i with
      | some v => ptrEval rest v
      | none => Except.error ("Index " ++ tok ++ " out of bounds")
    | none => Except.error ("Token " ++ tok ++ " is not an array index")
  | tok :: _, _ => Except.error ("Cannot index a primitive with token " ++ tok)

/-- Embedding of `resolveReference` (part_002): a value without a `$ref` key
is returned unchanged; a `$ref` not starting with `#` throws an
unsupported-reference error; otherwise the fragment is parsed as a JSON
pointer (a parse failure from the external library propagates, the parse
being outside the `try`) and evaluated against the document, a failed
evaluation being caught and turned into the distinguishable `none` ("not
found") result.  Only one level of reference is resolved.  A present but
non-string `$ref` is a `TypeError` (excluded by the TypeScript types). -/
def resolveReference (specDoc : Json) (value : Json) : Except String (Option Json) :=
  match value.getProp "$ref" with
  | some (Json.str ref) =>
    if strLeadsWith ref "#" = false then
      Except.error ("Cannot resolve external reference " ++ ref ++ " in the OpenAPI schema.")
    else
      match ptrParse (strDropOne ref) with
      | Except.error e => Except.error e
      | Except.ok tokens =>
        match ptrEval tokens specDoc with
        | Except.ok target => Except.ok (some target)
        | Except.error _ => Except.ok none
  | some _ =>
    Except.error "TypeError: the member named $ref is not a string"
  | none => Except.ok (some value)

/-- A small spec document for exercising the resolver. -/
def demoSpecDoc : Json :=
  Json.obj [("components", Json.obj [("schemas",
    Json.obj [("Pet", Json.obj [("type", Json.str "string")])])])]

/-! ## Content-type matcher (`pickContentType`, part_002 lines 74-121) -/

/-- Characters before the first occurrence of `sep` (the whole list when
`sep` does not occur), modelling `indexOf(";")` / `substring(0, i)`. -/
def takeUntilChar (sep : Char) : List Char → List Char
  | [] => []
  | c :: rest => if c = sep then [] else c :: takeUntilChar sep rest

/-- Strip any `;`-delimited parameters from an observed content type. -/
def stripAfterSemicolon (s : String) : String :=
  String.mk (takeUntilChar ';' s.data)

/-- The `localWildcards` computation of the selection loop: 1 for each half
of the candidate pattern that is a `*` wildcard. -/
def wildcardCount (pattern : String) : Nat :=
  ((if (splitChar '/' pattern).get? 0 = some "*" then 1 else 0) : Nat) +
  (if (splitChar '/' pattern).get? 1 = some "*" then 1 else 0)

/-- A candidate pattern matches the observed `type/subtype` halves when each
half either matches exactly or is a `*` wildcard in the candidate (an
out-of-range half models the JavaScript `undefined`, which compares equal to
an equally missing observed half). -/
abbrev matchesPred (contentTypeParts : List String) (pattern : String) : Prop :=
  ((splitChar '/' pattern).get? 0 = some "*" ∨
    (splitChar '/' pattern).get? 0 = contentTypeParts.get? 0) ∧
  ((splitChar '/' pattern).get? 1 = some "*" ∨
    (splitChar '/' pattern).get? 1 = contentTypeParts.get? 1)

/-- The value of the first entry matching with exactly `m` wildcard halves. -/
def firstMatchWithCount {T : Type} (contentTypeParts : List String)
    (entries : List (String × T)) (m : Nat) : Option T :=
  (entries.find? (fun e =>
      decide (matchesPred contentTypeParts e.1) && (wildcardCount e.1 == m))).map
    (fun e => e.2)

/-- Embedding of the selection loop of `pickContentType`: scan the entries in
order, skip a candidate when one of its halves neither is `*` nor equals the
observed half, adopt a matching candidate when none is chosen yet or it uses
strictly fewer wildcard halves, and short-circuit on a zero-wildcard match. -/
def pickLoop {T : Type} (contentTypeParts : List String) :
    List (String × T) → Option T → Nat → Option T
  | [], chosen, _ => chosen
  | (type, value) :: rest, chosen, wildcardsUsed =>
    if (splitChar '/' type).get? 0 ≠ some "*" ∧
        (splitChar '/' type).get? 0 ≠ contentTypeParts.get? 0 then
      pickLoop contentTypeParts rest chosen wildcardsUsed
    else if (splitChar '/' type).get? 1 ≠ some "*" ∧
        (splitChar '/' type).get? 1 ≠ contentTypeParts.get? 1 then
      pickLoop contentTypeParts rest chosen wildcardsUsed
    else
      if chosen.isNone ∨ wildcardCount type < wildcardsUsed then
        if wildcardCount type = 0 then some value
        else pickLoop contentTypeParts rest (some value) (wildcardCount type)
      else pickLoop contentTypeParts rest chosen wildcardsUsed

/-- Embedding of `pickContentType` (part_002): an empty observed type is
normalized to absent; `;`-delimited parameters are stripped; an absent (or
stripped-to-empty) observed type selects only the `*/*` entry; otherwise the
observed type is split into halves and the scan loop picks the best match. -/
def pickContentType {T : Type} (contentType : Option String) (values : List (String × T)) :
    Option T :=
  let ct1 : Option String := if contentType = some "" then none else contentType
  let ct2 : Option String :=
    match ct1 with
    | some ct => some (stripAfterSemicolon ct)
    | none => none
  match ct2 with
  | none => lookupEntry values "*/*"
  | some ct =>
    if ct = "" then lookupEntry values "*/*"
    else pickLoop (splitChar '/' ct) values none 0

/-! ## Method handler factory (part_001)

The factory is typed generically: `C` is the controller-object type, `H` the
handler-function type, `HM` the handler middleware type, `EM` the express
middleware type, `A` the argument-descriptor type and `P` the request-data
processor type.  JavaScript property access used by the default handler
resolver is an explicit `getMethod` function: `getMethod c k = some f` means
that `c[k]` is a function `f`, `none` that the lookup does not yield a
callable. -/

/-- A string or symbol key, as used for controller and handler lookup. -/
inductive JsKey : Type where
  | strKey : String → JsKey
  | symKey : String → JsKey
deriving DecidableEq

/-- JavaScript `String(key)`. -/
def JsKey.jsString : JsKey → String
  | JsKey.strKey s => s
  | JsKey.symKey s => "Symbol(" ++ s ++ ")"

/-- The `controller` member of the extension: a concrete object or a key. -/
inductive ControllerRef (C : Type) : Type where
  | objRef : C → ControllerRef C
  | keyRef : JsKey → ControllerRef C

/-- The `handler` member of the extension: a concrete function or a key. -/
inductive HandlerRef (H : Type) : Type where
  | fnRef : H → HandlerRef H
  | keyRef : JsKey → HandlerRef H

/-- The binding-metadata extension object attached to an operation
(`SOCControllerMethodExtensionData`). -/
structure SOCControllerMethodExtensionData (C H HM EM A : Type) : Type where
  controller : ControllerRef C
  handler : HandlerRef H
  handlerArgs : Option (List A)
  handlerMiddleware : Option (List HM)
  preExpressMiddleware : Option (List EM)

/-- Modelled from the spec: the name of the binding-metadata extension field
on an operation (defined in the repository's openapi module, outside src/). -/
def SOCControllerMethodExtensionName : String := "x-sec-controller-method"

/-- An OpenAPI operation object: its id and the binding-metadata extension
member (absent when the operation carries no binding metadata). -/
structure OperationObject (C H HM EM A : Type) : Type where
  operationId : Option String
  socExtension : Option (SOCControllerMethodExtensionData C H HM EM A)

/-- JavaScript string interpolation of the possibly-undefined operation id. -/
def operationIdString {C H HM EM A : Type} (operation : OperationObject C H HM EM A) : String :=
  operation.operationId.getD "undefined"

/-- A path item: its operations keyed by HTTP method (`pathItem[method]`). -/
structure PathItem (C H HM EM A : Type) : Type where
  operations : List (String × OperationObject C H HM EM A)

/-- The root spec object; `paths` may be absent (`spec.paths ?? {}`). -/
structure OpenAPIObject (C H HM EM A : Type) : Type where
  paths : Option (List (String × PathItem C H HM EM A))

/-- The immutable per-operation context handed to resolvers. -/
structure OperationContext (C H HM EM A : Type) : Type where
  spec : OpenAPIObject C H HM EM A
  path : String
  method : String
  pathItem : PathItem C H HM EM A
  operation : OperationObject C H HM EM A

/-- The context stored on the built `MethodHandler`. -/
structure MethodHandlerContext (C H HM EM A : Type) : Type where
  spec : OpenAPIObject C H HM EM A
  path : String
  method : String
  pathItem : PathItem C H HM EM A
  operation : OperationObject C H HM EM A
  controller : C
  handler : H

/-- The context handed to each request-data-processor factory, including the
schema-wrapping `createValueProcessor` capability. -/
structure RequestDataProcessorFactoryContext (C H HM EM A : Type) : Type where
  spec : OpenAPIObject C H HM EM A
  path : String
  method : String
  pathItem : PathItem C H HM EM A
  operation : OperationObject C H HM EM A
  controller : C
  handler : H
  createValueProcessor : Json → Json → Except ValidationError Json

/-- The fully resolved, executable binding for one operation. -/
structure MethodHandler (C H HM EM A P : Type) : Type where
  controller : C
  handler : H
  handlerArgs : List A
  processors : List P
  handlerMiddleware : List HM
  preExpressMiddleware : List EM
  postExpressMiddleware : List EM
  context : MethodHandlerContext C H HM EM A

/-- The build options (`CreateMethodHandlerOpts`): optional resolver
overrides, optional processor factories, optional default middleware. -/
structure CreateMethodHandlerOpts (C H HM EM A P : Type) : Type where
  resolveController :
    Option (ControllerRef C → OperationContext C H HM EM A → Except String C) := none
  resolveHandler :
    Option (C → HandlerRef H → OperationContext C H HM EM A → Except String H) := none
  requestDataProcessorFactories :
    Option (List (RequestDataProcessorFactoryContext C H HM EM A → Option P)) := none
  handlerMiddleware : Option (List HM) := none
  preExpressMiddleware : Option (List EM) := none
  postExpressMiddleware : Option (List EM) := none

/-- Embedding of `defaultResolveController` (part_001): a concrete object is
used as-is; anything else (a string or symbol key) throws a configuration
error naming the operation id, the HTTP method and the path. -/
def defaultResolveController {C H HM EM A : Type} (controller : ControllerRef C)
    (ctx : OperationContext C H HM EM A) : Except String C :=
  match controller with
  | ControllerRef.objRef c => Except.ok c
  | ControllerRef.keyRef k =>
    Except.error
      ("Controller for operation " ++ operationIdString ctx.operation ++
        " handling \"" ++ ctx.method ++ " " ++ ctx.path ++
        "\" is not an object (got " ++ k.jsString ++ ").")

/-- Embedding of `defaultResolveHandler` (part_001): a string/symbol key
whose lookup on the controller yields a function is replaced by that
function; whatever is left must be a function, otherwise a configuration
error naming the operation and the candidate key is thrown. -/
def defaultResolveHandler {C H HM EM A : Type} (getMethod : C → JsKey → Option H)
    (controller : C) (method : HandlerRef H) (ctx : OperationContext C H HM EM A) :
    Except String H :=
  let method2 : HandlerRef H :=
    match method with
    | HandlerRef.keyRef k =>
      match getMethod controller k with
      | some f => HandlerRef.fnRef f
      | none => HandlerRef.keyRef k
    | HandlerRef.fnRef f => HandlerRef.fnRef f
  match method2 with
  | HandlerRef.fnRef f => Except.ok f
  | HandlerRef.keyRef k =>
    Except.error
      ("Handler for operation \"" ++ operationIdString ctx.operation ++
        "\" handling \"" ++ k.jsString ++ " " ++ ctx.path ++
        "\" is not a function (got " ++ k.jsString ++ ").")

/-- Embedding of `createMethodHandlerFromSpec` (part_001): locate the path
item and the operation (failing when absent), read and schema-validate the
binding-metadata extension (failing when absent or invalid — the extension
validator, compiled in the repository's openapi module outside src/, is the
abstract `validateExtensionData`, and `extensionErrorsText` stands for
`ajv.errorsText(...)`), resolve the controller and handler through the
supplied or default resolvers, run the processor factories (dropping those
that decline), and assemble the `MethodHandler`, concatenating default and
extension middleware lists (defaults first) for the handler-wrapping and
pre-dispatch lists while the post-dispatch list comes from the defaults
only. -/
def createMethodHandlerFromSpec {C H HM EM A P : Type}
    (getMethod : C → JsKey → Option H)
    (validateExtensionData : SOCControllerMethodExtensionData C H HM EM A → Bool)
    (extensionErrorsText : String)
    (ajvCompile : Json → ValidateFn)
    (spec : OpenAPIObject C H HM EM A) (path : String) (method : String)
    (opts : CreateMethodHandlerOpts C H HM EM A P) :
    Except String (MethodHandler C H HM EM A P) :=
  match lookupEntry (spec.paths.getD []) path with
  | none => Except.error ("Path " ++ path ++ " not found in spec.")
  | some pathItem =>
    match lookupEntry pathItem.operations method with
    | none => Except.error ("Operation " ++ method ++ " not found on path " ++ path ++ ".")
    | some operation =>
      match operation.socExtension with
      | none =>
        Except.error ("Operation " ++ operationIdString operation ++ " is missing the " ++
          SOCControllerMethodExtensionName ++ " extension.")
      | some extensionData =>
        if validateExtensionData extensionData = false then
          Except.error ("Operation " ++ operationIdString operation ++ " has an invalid " ++
            SOCControllerMethodExtensionName ++ " extension: " ++ extensionErrorsText ++
            "\x7d")
        else
          let resolveController := opts.resolveController.getD defaultResolveController
          let resolveHandler := opts.resolveHandler.getD (defaultResolveHandler getMethod)
          let ctx : OperationContext C H HM EM A :=
            ⟨spec, path, method, pathItem, operation⟩
          match resolveController extensionData.controller ctx with
          | Except.error e => Except.error e
          | Except.ok controller =>
            match resolveHandler controller extensionData.handler ctx with
            | Except.error e => Except.error e
            | Except.ok handler =>
              let processors :=
                ((opts.requestDataProcessorFactories.getD []).map
                  (fun factory => factory
                    ⟨spec, path, method, pathItem, operation, controller, handler,
                      createValueProcessor ajvCompile⟩)).filterMap id
              Except.ok
                ⟨controller, handler, extensionData.handlerArgs.getD [], processors,
                  (opts.handlerMiddleware.getD []) ++
                    (extensionData.handlerMiddleware.getD []),
                  (opts.preExpressMiddleware.getD []) ++
                    (extensionData.preExpressMiddleware.getD []),
                  opts.postExpressMiddleware.getD [],
                  ⟨spec, path, method, pathItem, operation, controller, handler⟩⟩

/-- Discriminates the thrown case of an `Except` computation. -/
def isError {ε α : Type} : Except ε α → Bool
  | Except.error _ => true
  | Except.ok _ => false

/-- The message `msg` mentions `part`: the part occurs verbatim inside it. -/
def mentions (msg part : String) : Prop :=
  ∃ a b, msg = a ++ part ++ b

/-! ## Decorator argument registration
(`setMethodParameterType`, packages/controllers/src/decorators/handler/arguments/utils.ts)

`mergeSOCControllerMethodMetadata` (repository code outside src/) is modelled
from the spec as applying the updater function to the currently stored
metadata and storing the result; `setMethodParameterType` below is that
updater acting on the metadata record.  The argument list models a JavaScript
array whose holes (and out-of-range reads) are `none`; an entry that is
present always carries a `type` tag, so the source's `args[i]?.type` test is
`isSome` here. -/

/-- Metadata carried for a controller method: the argument-descriptor array
and the remaining metadata members (`{ ...previous, args }` keeps them). -/
structure SOCMethodMetadata (A R : Type) : Type where
  args : Option (List (Option A))
  rest : R

/-- JavaScript array read `args[i]` (`none` for holes and out of range). -/
def argAt {A : Type} : List (Option A) → Nat → Option A
  | [], _ => none
  | x :: _, 0 => x
  | _ :: xs, Nat.succ n => argAt xs n

/-- JavaScript array assignment `args[i] = a`, padding with holes when the
index is past the end. -/
def jsArraySet {A : Type} : List (Option A) → Nat → A → List (Option A)
  | [], 0, a => [some a]
  | [], Nat.succ n, a => none :: jsArraySet [] n a
  | _ :: xs, 0, a => some a :: xs
  | x :: xs, Nat.succ n, a => x :: jsArraySet xs n a

/-- Embedding of `setMethodParameterType` (utils.ts lines 43-69): copy the
previous argument array, throw when a typed descriptor already sits at the
index, otherwise record the descriptor at exactly that index and keep every
other metadata member. -/
def setMethodParameterType {A R : Type} (propertyKey : String) (parameterIndex : Nat)
    (arg : A) (previous : SOCMethodMetadata A R) : Except String (SOCMethodMetadata A R) :=
  if (argAt (previous.args.getD []) parameterIndex).isSome then
    Except.error ("Method handler " ++ propertyKey ++
      " cannot redefine the parameter type at index " ++ Nat.repr parameterIndex ++ ".")
  else
    Except.ok
      ⟨some (jsArraySet (previous.args.getD []) parameterIndex arg), previous.rest⟩

/-! ## Demo instantiation of the factory model

Controllers and handlers are labelled by strings; middleware, argument
descriptors and processors are numbers; the method lookup finds `doThing`
on the controller labelled `controller`. -/

/-- Demo JavaScript property access for the default handler resolver. -/
def demoGetMethod : String → JsKey → Option String :=
  fun c k =>
    if c = "controller" ∧ k = JsKey.strKey "doThing" then some "boundHandler" else none

/-- Demo extension-data validator: accepts everything. -/
def demoValidateExt : SOCControllerMethodExtensionData String String Nat Nat Nat → Bool :=
  fun _ => true

/-- Demo extension data carrying per-operation middleware lists. -/
def demoExtData : SOCControllerMethodExtensionData String String Nat Nat Nat :=
  ⟨ControllerRef.objRef "controller", HandlerRef.fnRef "handlerFn",
    some [7], some [21, 22], some [31]⟩

/-- Demo operation carrying the extension. -/
def demoOperation : OperationObject String String Nat Nat Nat :=
  ⟨some "post-add", some demoExtData⟩

/-- Demo path item exposing the operation under `post`. -/
def demoPathItem : PathItem String String Nat Nat Nat :=
  ⟨[("post", demoOperation)]⟩

/-- Demo spec document with one path. -/
def demoSpec : OpenAPIObject String String Nat Nat Nat :=
  ⟨some [("/add", demoPathItem)]⟩

/-- A demo spec with an empty path table. -/
def demoSpecNoPaths : OpenAPIObject String String Nat Nat Nat := ⟨some []⟩

/-- Demo build options with default middleware lists and no overrides. -/
def demoOpts : CreateMethodHandlerOpts String String Nat Nat Nat Nat :=
  ⟨none, none, none, some [11], some [30], some [40]⟩

/-- The method handler assembled from the demo inputs. -/
def demoBuiltHandler : MethodHandler String String Nat Nat Nat Nat :=
  ⟨"controller", "handlerFn", [7], [], [11, 21, 22], [30, 31], [40],
    ⟨demoSpec, "/add", "post", demoPathItem, demoOperation, "controller", "handlerFn"⟩⟩

/-- A demo operation context over the demo spec. -/
def demoCtx : OperationContext String String Nat Nat Nat :=
  ⟨demoSpec, "/add", "post", demoPathItem, demoOperation⟩

/-! ## Basic facts about the JavaScript value model -/

mutual

theorem Json.beq_refl : ∀ a : Json, Json.beq a a = true
  | Json.null => rfl
  | Json.undef => rfl
  | Json.bool a => by simp [Json.beq]
  | Json.num a => by simp [Json.beq]
  | Json.str a => by simp [Json.beq]
  | Json.arr l => by simp [Json.beq, Json.beqList_refl l]
  | Json.obj l => by simp [Json.beq, Json.beqFields_refl l]

theorem Json.beqList_refl : ∀ l : List Json, Json.beqList l l = true
  | [] => rfl
  | a :: as => by simp [Json.beqList, Json.beq_refl a, Json.beqList_refl as]

theorem Json.beqFields_refl : ∀ l : List (String × Json), Json.beqFields l l = true
  | [] => rfl
  | (k, v) :: rest => by simp [Json.beqFields, Json.beq_refl v, Json.beqFields_refl rest]

end

/-! ## Sanity checks on concrete inputs -/

example :
    createValueProcessor demoCompile (Json.obj [("type", Json.str "number")]) (Json.str "42") =
      Except.ok (Json.num 42) := rfl

example :
    createValueProcessor demoCompile (Json.obj [("type", Json.str "number")]) (Json.str "abc") =
      Except.error (ValidationError.mk [AjvError.mk "/value" "must be number"]) := rfl

example :
    resolveReference demoSpecDoc (Json.obj [("$ref", Json.str "#/components/schemas/Pet")]) =
      Except.ok (some (Json.obj [("type", Json.str "string")])) := rfl

example :
    resolveReference demoSpecDoc (Json.obj [("$ref", Json.str "#/components/schemas/Missing")]) =
      Except.ok none := rfl

example :
    resolveReference demoSpecDoc (Json.obj [("$ref", Json.str "http://other/doc#/X")]) =
      Except.error
        ("Cannot resolve external reference http://other/doc#/X in the OpenAPI schema.") := rfl

example :
    pickContentType (some "text/plain; charset=utf-8")
      [("application/json", 1), ("text/*", 2)] = some 2 := rfl

example :
    pickContentType (some "application/json")
      [("text/*", 2), ("*/*", 3), ("application/json", 1)] = some 1 := rfl

example : pickContentType none [("application/json", 1)] = none := rfl

example : pickContentType none [("application/json", 1), ("*/*", 3)] = some 3 := rfl

example : pickContentType (some "") [("*/*", 3)] = some 3 := rfl

/-! ## Claims about the value coercer -/

/-- C1: the value processor built by `createValueProcessor` wraps the schema
in the synthetic object schema `{ type: "object", properties: { value: schema } }`,
wraps the candidate as `{ value: candidate }`, validates that wrapper, on
success returns the wrapper's (possibly mutated-in-place) `value` property as
the coerced result, and on validation failure throws a structured
`ValidationError` instead of returning a value. -/
theorem claim_C1 (compile : Json → ValidateFn) (schema value : Json) :
    syntheticWrapperSchema schema =
      Json.obj [("type", Json.str "object"), ("properties", Json.obj [("value", schema)])] ∧
    wrapCandidate value = Json.obj [("value", value)] ∧
    (∀ mutated, compile (syntheticWrapperSchema schema) (wrapCandidate value) = Except.ok mutated →
      createValueProcessor compile schema value = Except.ok (mutated.jsGet "value")) ∧
    (∀ errs, compile (syntheticWrapperSchema schema) (wrapCandidate value) = Except.error errs →
      createValueProcessor compile schema value = Except.error (ValidationError.mk errs)) := by
  refine ⟨rfl, rfl, ?_, ?_⟩
  · intro mutated h
    simp [createValueProcessor, h]
  · intro errs h
    simp [createValueProcessor, h]

theorem claim_C1_witness :
    demoCompile (syntheticWrapperSchema (Json.obj [("type", Json.str "number")]))
        (wrapCandidate (Json.str "42")) = Except.ok (Json.obj [("value", Json.num 42)]) ∧
    createValueProcessor demoCompile (Json.obj [("type", Json.str "number")]) (Json.str "42") =
      Except.ok ((Json.obj [("value", Json.num 42)]).jsGet "value") :=
  ⟨rfl, (claim_C1 demoCompile (Json.obj [("type", Json.str "number")]) (Json.str "42")).2.2.1
    (Json.obj [("value", Json.num 42)]) rfl⟩

/-- C2 (counterexample): the claim says error paths are reported with the
synthetic `value` wrapper segment stripped.  They are not: on a failing
coercion the processor throws the validator's error list unchanged, with the
`/value` instance path intact. -/
theorem claim_C2_counterexample :
    createValueProcessor demoCompile (Json.obj [("type", Json.str "number")]) (Json.str "abc") =
      Except.error (ValidationError.mk [AjvError.mk "/value" "must be number"]) ∧
    pathsStripped [AjvError.mk "/value" "must be number"] = false :=
  ⟨rfl, rfl⟩

/-- C2 (amended): for every schema fragment and candidate that fails
validation of the wrapper, the processor throws a `ValidationError` carrying
the validator's error list unchanged — in particular the synthetic `value`
wrapper path segment is NOT stripped from the reported paths. -/
theorem claim_C2 (compile : Json → ValidateFn) (schema value : Json) (errs : List AjvError) :
    compile (syntheticWrapperSchema schema) (wrapCandidate value) = Except.error errs →
    createValueProcessor compile schema value = Except.error (ValidationError.mk errs) := by
  intro h
  simp [createValueProcessor, h]

theorem claim_C2_witness :
    demoCompile (syntheticWrapperSchema (Json.obj [("type", Json.str "number")]))
        (wrapCandidate (Json.str "abc")) =
      Except.error [AjvError.mk "/value" "must be number"] ∧
    createValueProcessor demoCompile (Json.obj [("type", Json.str "number")]) (Json.str "abc") =
      Except.error (ValidationError.mk [AjvError.mk "/value" "must be number"]) :=
  ⟨rfl, claim_C2 demoCompile (Json.obj [("type", Json.str "number")]) (Json.str "abc")
    [AjvError.mk "/value" "must be number"] rfl⟩

/-- C8: building a processor for the same schema fragment twice yields
processors with identical observable coercion behavior (and identical to the
pure source embedding `createValueProcessor`); the second build is a cache
hit that records nothing new in the engine, and a fragment not yet compiled
is compiled exactly once at build time — coercions reuse the compiled
validator and never touch the engine state again (the processor closure is a
pure function of the one compiled validator). -/
theorem claim_C8 (interp : Json → ValidateFn) (schema : Json) (st : AjvState) :
    (∀ v, (createValueProcessorCached interp schema st).1 v
        = (createValueProcessorCached interp schema
            (createValueProcessorCached interp schema st).2).1 v) ∧
    (∀ v, (createValueProcessorCached interp schema st).1 v
        = createValueProcessor interp schema v) ∧
    ((createValueProcessorCached interp schema
        (createValueProcessorCached interp schema st).2).2
      = (createValueProcessorCached interp schema st).2) ∧
    (jsonListContains st.compiled (syntheticWrapperSchema schema) = false →
      ((createValueProcessorCached interp schema st).2).compiled
        = st.compiled ++ [syntheticWrapperSchema schema]) := by
  have hmem : ∀ l : List Json,
      jsonListContains (l ++ [syntheticWrapperSchema schema]) (syntheticWrapperSchema schema)
        = true := by
    intro l
    simp [jsonListContains, List.any_append, Json.beq_refl]
  by_cases h : jsonListContains st.compiled (syntheticWrapperSchema schema)
  · refine ⟨?_, ?_, ?_, ?_⟩
    · intro v
      simp [createValueProcessorCached, ajvCompileCached, h]
    · intro v
      simp [createValueProcessorCached, ajvCompileCached, createValueProcessor, h]
    · simp [createValueProcessorCached, ajvCompileCached, h]
    · intro hf
      rw [h] at hf
      exact absurd hf (by simp)
  · rw [Bool.not_eq_true] at h
    refine ⟨?_, ?_, ?_, ?_⟩
    · intro v
      simp [createValueProcessorCached, ajvCompileCached, h, hmem]
    · intro v
      simp [createValueProcessorCached, ajvCompileCached, createValueProcessor, h]
    · simp [createValueProcessorCached, ajvCompileCached, h, hmem]
    · intro _
      simp [createValueProcessorCached, ajvCompileCached, h]

theorem claim_C8_witness :
    jsonListContains (AjvState.mk []).compiled
        (syntheticWrapperSchema (Json.obj [("type", Json.str "number")])) = false ∧
    ((createValueProcessorCached demoCompile (Json.obj [("type", Json.str "number")])
        (AjvState.mk [])).2).compiled
      = [] ++ [syntheticWrapperSchema (Json.obj [("type", Json.str "number")])] :=
  ⟨rfl, (claim_C8 demoCompile (Json.obj [("type", Json.str "number")]) (AjvState.mk [])).2.2.2 rfl⟩

/-! ## Characterization of the content-type selection loop -/

theorem pickLoop_cons_nomatch {T : Type} (cparts : List String) (t : String) (v : T)
    (rest : List (String × T)) (chosen : Option T) (wu : Nat)
    (h : ¬ matchesPred cparts t) :
    pickLoop cparts ((t, v) :: rest) chosen wu = pickLoop cparts rest chosen wu := by
  by_cases hc1 : (splitChar '/' t).get? 0 ≠ some "*" ∧
      (splitChar '/' t).get? 0 ≠ cparts.get? 0
  · simp only [pickLoop]
    rw [if_pos hc1]
  · have hc2 : (splitChar '/' t).get? 1 ≠ some "*" ∧
        (splitChar '/' t).get? 1 ≠ cparts.get? 1 := by
      unfold matchesPred at h
      tauto
    simp only [pickLoop]
    rw [if_neg hc1, if_pos hc2]

theorem pickLoop_cons_match {T : Type} (cparts : List String) (t : String) (v : T)
    (rest : List (String × T)) (chosen : Option T) (wu : Nat)
    (h : matchesPred cparts t) :
    pickLoop cparts ((t, v) :: rest) chosen wu =
      if chosen.isNone ∨ wildcardCount t < wu then
        if wildcardCount t = 0 then some v
        else pickLoop cparts rest (some v) (wildcardCount t)
      else pickLoop cparts rest chosen wu := by
  have hc1 : ¬((splitChar '/' t).get? 0 ≠ some "*" ∧
      (splitChar '/' t).get? 0 ≠ cparts.get? 0) := by
    unfold matchesPred at h
    tauto
  have hc2 : ¬((splitChar '/' t).get? 1 ≠ some "*" ∧
      (splitChar '/' t).get? 1 ≠ cparts.get? 1) := by
    unfold matchesPred at h
    tauto
  simp only [pickLoop]
  rw [if_neg hc1, if_neg hc2]

theorem pickLoop_skip_all {T : Type} (cparts : List String) :
    ∀ (entries : List (String × T)) (chosen : Option T) (wu : Nat),
      (∀ e ∈ entries, ¬ matchesPred cparts e.1) →
      pickLoop cparts entries chosen wu = chosen := by
  intro entries
  induction entries with
  | nil => intro chosen wu _; rfl
  | cons e rest ih =>
    intro chosen wu h
    obtain ⟨t, v⟩ := e
    rw [pickLoop_cons_nomatch cparts t v rest chosen wu (h (t, v) (List.mem_cons_self _ _))]
    exact ih chosen wu (fun x hx => h x (List.mem_cons_of_mem _ hx))

theorem pickLoop_above {T : Type} (cparts : List String) :
    ∀ (entries : List (String × T)) (c : T) (wu : Nat),
      (∀ e ∈ entries, matchesPred cparts e.1 → wu ≤ wildcardCount e.1) →
      pickLoop cparts entries (some c) wu = some c := by
  intro entries
  induction entries with
  | nil => intro c wu _; rfl
  | cons e rest ih =>
    intro c wu h
    obtain ⟨t, v⟩ := e
    by_cases hm : matchesPred cparts t
    · rw [pickLoop_cons_match cparts t v rest (some c) wu hm]
      have hle : wu ≤ wildcardCount t := h (t, v) (List.mem_cons_self _ _) hm
      have hcond : ¬((some c).isNone = true ∨ wildcardCount t < wu) := by
        rintro (hc | hc)
        · simp at hc
        · omega
      rw [if_neg hcond]
      exact ih c wu (fun x hx hmx => h x (List.mem_cons_of_mem _ hx) hmx)
    · rw [pickLoop_cons_nomatch cparts t v rest (some c) wu hm]
      exact ih c wu (fun x hx hmx => h x (List.mem_cons_of_mem _ hx) hmx)

theorem pickLoop_some_isSome {T : Type} (cparts : List String) :
    ∀ (entries : List (String × T)) (c : T) (wu : Nat),
      (pickLoop cparts entries (some c) wu).isSome = true := by
  intro entries
  induction entries with
  | nil => intro c wu; rfl
  | cons e rest ih =>
    intro c wu
    obtain ⟨t, v⟩ := e
    by_cases hm : matchesPred cparts t
    · rw [pickLoop_cons_match cparts t v rest (some c) wu hm]
      by_cases hcond : (some c).isNone = true ∨ wildcardCount t < wu
      · rw [if_pos hcond]
        by_cases h0 : wildcardCount t = 0
        · rw [if_pos h0]; rfl
        · rw [if_neg h0]; exact ih v (wildcardCount t)
      · rw [if_neg hcond]; exact ih c wu
    · rw [pickLoop_cons_nomatch cparts t v rest (some c) wu hm]
      exact ih c wu

theorem pickLoop_isSome_of_match {T : Type} (cparts : List String) :
    ∀ (entries : List (String × T)) (wu : Nat),
      (∃ e ∈ entries, matchesPred cparts e.1) →
      (pickLoop cparts entries (none : Option T) wu).isSome = true := by
  intro entries
  induction entries with
  | nil =>
    intro wu hex
    obtain ⟨e, he, _⟩ := hex
    exact absurd he (List.not_mem_nil e)
  | cons e rest ih =>
    intro wu hex
    obtain ⟨t, v⟩ := e
    by_cases hm : matchesPred cparts t
    · rw [pickLoop_cons_match cparts t v rest none wu hm]
      have hcond : (none : Option T).isNone = true ∨ wildcardCount t < wu := Or.inl rfl
      rw [if_pos hcond]
      by_cases h0 : wildcardCount t = 0
      · rw [if_pos h0]; rfl
      · rw [if_neg h0]; exact pickLoop_some_isSome cparts rest v (wildcardCount t)
    · rw [pickLoop_cons_nomatch cparts t v rest none wu hm]
      refine ih wu ?_
      obtain ⟨e, he, hme⟩ := hex
      rcases List.mem_cons.mp he with heq | he'
      · rw [heq] at hme; exact absurd hme hm
      · exact ⟨e, he', hme⟩

/-- Main invariant of the selection loop: when every match weighs at least
`m` wildcards and some match weighs exactly `m`, the loop (started empty, or
with a chosen candidate it is still allowed to beat) returns the value of the
first entry matching with exactly `m` wildcards. -/
theorem pickLoop_found {T : Type} (cparts : List String) :
    ∀ (entries : List (String × T)) (chosen : Option T) (wu m : Nat),
      (chosen = none ∨ m < wu) →
      (∀ e ∈ entries, matchesPred cparts e.1 → m ≤ wildcardCount e.1) →
      (∃ e ∈ entries, matchesPred cparts e.1 ∧ wildcardCount e.1 = m) →
      pickLoop cparts entries chosen wu = firstMatchWithCount cparts entries m := by
  intro entries
  induction entries with
  | nil =>
    intro chosen wu m _ _ hex
    obtain ⟨e, he, _⟩ := hex
    exact absurd he (List.not_mem_nil e)
  | cons e rest ih =>
    intro chosen wu m hcw hub hex
    obtain ⟨t, v⟩ := e
    by_cases hm : matchesPred cparts t
    · have hmle : m ≤ wildcardCount t := hub (t, v) (List.mem_cons_self _ _) hm
      rw [pickLoop_cons_match cparts t v rest chosen wu hm]
      by_cases hwc : wildcardCount t = m
      · have hfind : firstMatchWithCount cparts ((t, v) :: rest) m = some v := by
          unfold firstMatchWithCount
          rw [List.find?_cons_of_pos]
          · rfl
          · simp only [Bool.and_eq_true, decide_eq_true_eq, beq_iff_eq]
            exact ⟨hm, hwc⟩
        rw [hfind]
        have hcond : chosen.isNone = true ∨ wildcardCount t < wu := by
          rcases hcw with h | h
          · left; rw [h]; rfl
          · right; omega
        rw [if_pos hcond]
        by_cases h0 : wildcardCount t = 0
        · rw [if_pos h0]
        · rw [if_neg h0]
          exact pickLoop_above cparts rest v (wildcardCount t)
            (fun x hx hmx => by
              have := hub x (List.mem_cons_of_mem _ hx) hmx
              omega)
      · have hfind : firstMatchWithCount cparts ((t, v) :: rest) m
            = firstMatchWithCount cparts rest m := by
          unfold firstMatchWithCount
          rw [List.find?_cons_of_neg]
          simp [hwc]
        have hex' : ∃ e ∈ rest, matchesPred cparts e.1 ∧ wildcardCount e.1 = m := by
          obtain ⟨e, he, hme, hwce⟩ := hex
          rcases List.mem_cons.mp he with heq | he'
          · rw [heq] at hwce; exact absurd hwce hwc
          · exact ⟨e, he', hme, hwce⟩
        have hub' : ∀ e ∈ rest, matchesPred cparts e.1 → m ≤ wildcardCount e.1 :=
          fun x hx hmx => hub x (List.mem_cons_of_mem _ hx) hmx
        rw [hfind]
        by_cases hcond : chosen.isNone = true ∨ wildcardCount t < wu
        · rw [if_pos hcond]
          have h0 : ¬ wildcardCount t = 0 := by omega
          rw [if_neg h0]
          exact ih (some v) (wildcardCount t) m (Or.inr (by omega)) hub' hex'
        · rw [if_neg hcond]
          have hcw' : chosen = none ∨ m < wu := by
            rcases hcw with h | h
            · exfalso
              apply hcond
              left
              rw [h]
              rfl
            · exact Or.inr h
          exact ih chosen wu m hcw' hub' hex'
    · rw [pickLoop_cons_nomatch cparts t v rest chosen wu hm]
      have hfind : firstMatchWithCount cparts ((t, v) :: rest) m
          = firstMatchWithCount cparts rest m := by
        unfold firstMatchWithCount
        rw [List.find?_cons_of_neg]
        simp [hm]
      have hex' : ∃ e ∈ rest, matchesPred cparts e.1 ∧ wildcardCount e.1 = m := by
        obtain ⟨e, he, hme, hwce⟩ := hex
        rcases List.mem_cons.mp he with heq | he'
        · rw [heq] at hme; exact absurd hme hm
        · exact ⟨e, he', hme, hwce⟩
      rw [hfind]
      exact ih chosen wu m hcw
        (fun x hx hmx => hub x (List.mem_cons_of_mem _ hx) hmx) hex'

/-- Any non-empty set of matches has a first-found minimal wildcard weight. -/
theorem exists_minimal_match {T : Type} (cparts : List String) :
    ∀ (entries : List (String × T)),
      (∃ e ∈ entries, matchesPred cparts e.1) →
      ∃ m, (∃ e ∈ entries, matchesPred cparts e.1 ∧ wildcardCount e.1 = m) ∧
        ∀ e ∈ entries, matchesPred cparts e.1 → m ≤ wildcardCount e.1 := by
  intro entries
  induction entries with
  | nil =>
    intro hex
    obtain ⟨e, he, _⟩ := hex
    exact absurd he (List.not_mem_nil e)
  | cons e rest ih =>
    intro hex
    obtain ⟨t, v⟩ := e
    by_cases hm : matchesPred cparts t
    · by_cases hrest : ∃ x ∈ rest, matchesPred cparts x.1
      · obtain ⟨m', hex', hmin'⟩ := ih hrest
        by_cases hle : m' ≤ wildcardCount t
        · refine ⟨m', ?_, ?_⟩
          · obtain ⟨x, hx, hmx, hwx⟩ := hex'
            exact ⟨x, List.mem_cons_of_mem _ hx, hmx, hwx⟩
          · intro x hx hmx
            rcases List.mem_cons.mp hx with heq | hx'
            · rw [heq]; exact hle
            · exact hmin' x hx' hmx
        · refine ⟨wildcardCount t, ⟨(t, v), List.mem_cons_self _ _, hm, rfl⟩, ?_⟩
          intro x hx hmx
          rcases List.mem_cons.mp hx with heq | hx'
          · rw [heq]
          · have := hmin' x hx' hmx
            omega
      · refine ⟨wildcardCount t, ⟨(t, v), List.mem_cons_self _ _, hm, rfl⟩, ?_⟩
        intro x hx hmx
        rcases List.mem_cons.mp hx with heq | hx'
        · rw [heq]
        · exact absurd ⟨x, hx', hmx⟩ hrest
    · have hrest : ∃ x ∈ rest, matchesPred cparts x.1 := by
        obtain ⟨x, hx, hmx⟩ := hex
        rcases List.mem_cons.mp hx with heq | hx'
        · rw [heq] at hmx; exact absurd hmx hm
        · exact ⟨x, hx', hmx⟩
      obtain ⟨m', hex', hmin'⟩ := ih hrest
      refine ⟨m', ?_, ?_⟩
      · obtain ⟨x, hx, hmx, hwx⟩ := hex'
        exact ⟨x, List.mem_cons_of_mem _ hx, hmx, hwx⟩
      · intro x hx hmx
        rcases List.mem_cons.mp hx with heq | hx'
        · rw [heq] at hmx; exact absurd hmx hm
        · exact hmin' x hx' hmx

theorem takeUntilChar_idem (sep : Char) :
    ∀ l : List Char, takeUntilChar sep (takeUntilChar sep l) = takeUntilChar sep l := by
  intro l
  induction l with
  | nil => rfl
  | cons c rest ih =>
    by_cases h : c = sep
    · simp [takeUntilChar, h]
    · simp [takeUntilChar, h, ih]

theorem stripAfterSemicolon_idem (s : String) :
    stripAfterSemicolon (stripAfterSemicolon s) = stripAfterSemicolon s := by
  simp [stripAfterSemicolon, takeUntilChar_idem]

theorem pickContentType_eq_pickLoop {T : Type} (ct : String) (values : List (String × T))
    (hne : ct ≠ "") (hstrip : stripAfterSemicolon ct = ct) :
    pickContentType (some ct) values = pickLoop (splitChar '/' ct) values none 0 := by
  simp [pickContentType, hne, hstrip]

theorem pickContentType_strips {T : Type} (s : String) (values : List (String × T)) :
    pickContentType (some s) values = pickContentType (some (stripAfterSemicolon s)) values := by
  by_cases hs : s = ""
  · rw [hs]
    rfl
  · by_cases hss : stripAfterSemicolon s = ""
    · simp [pickContentType, hs, hss]
    · simp [pickContentType, hs, hss, stripAfterSemicolon_idem]

/-! ## Claims about the content-type matcher -/

/-- C4: `pickContentType` strips `;`-delimited parameters from the observed
type; an empty or absent observed type selects only the `*/*` entry (none
when `*/*` is absent); for a non-empty parameter-free observed type the
result is `none` exactly when no candidate matches (each half equal or `*`
in the candidate), a returned value belongs to a matching candidate with the
fewest wildcard halves among all matching candidates, and a zero-wildcard
(exact) match always wins: the result is the first exact match's value. -/
theorem claim_C4 {T : Type} (values : List (String × T)) :
    pickContentType none values = lookupEntry values "*/*" ∧
    pickContentType (some "") values = lookupEntry values "*/*" ∧
    (∀ s : String, pickContentType (some s) values
        = pickContentType (some (stripAfterSemicolon s)) values) ∧
    (∀ ct : String, ct ≠ "" → stripAfterSemicolon ct = ct →
      (pickContentType (some ct) values = none →
        ∀ e ∈ values, ¬ matchesPred (splitChar '/' ct) e.1) ∧
      (∀ v, pickContentType (some ct) values = some v →
        ∃ p, (p, v) ∈ values ∧ matchesPred (splitChar '/' ct) p ∧
          ∀ q ∈ values, matchesPred (splitChar '/' ct) q.1 →
            wildcardCount p ≤ wildcardCount q.1) ∧
      (∀ v, firstMatchWithCount (splitChar '/' ct) values 0 = some v →
        pickContentType (some ct) values = some v)) := by
  refine ⟨rfl, rfl, fun s => pickContentType_strips s values, ?_⟩
  intro ct hne hstrip
  refine ⟨?_, ?_, ?_⟩
  · intro hnone e he hme
    have hsome := pickLoop_isSome_of_match (splitChar '/' ct) values 0 ⟨e, he, hme⟩
    rw [pickContentType_eq_pickLoop ct values hne hstrip] at hnone
    rw [hnone] at hsome
    exact absurd hsome (by simp)
  · intro v hv
    have hex : ∃ e ∈ values, matchesPred (splitChar '/' ct) e.1 := by
      by_contra hno
      push_neg at hno
      rw [pickContentType_eq_pickLoop ct values hne hstrip,
        pickLoop_skip_all (splitChar '/' ct) values none 0 hno] at hv
      exact Option.noConfusion hv
    obtain ⟨m, hexm, hmin⟩ := exists_minimal_match (splitChar '/' ct) values hex
    rw [pickContentType_eq_pickLoop ct values hne hstrip,
      pickLoop_found (splitChar '/' ct) values none 0 m (Or.inl rfl) hmin hexm] at hv
    unfold firstMatchWithCount at hv
    rw [Option.map_eq_some'] at hv
    obtain ⟨e₀, hfind, hv2⟩ := hv
    obtain ⟨p₀, w₀⟩ := e₀
    subst hv2
    have he₀ : (p₀, w₀) ∈ values := List.mem_of_find?_eq_some hfind
    have hp := List.find?_some hfind
    simp only [Bool.and_eq_true, decide_eq_true_eq, beq_iff_eq] at hp
    refine ⟨p₀, he₀, hp.1, ?_⟩
    intro q hq hmq
    have := hmin q hq hmq
    omega
  · intro v hv
    unfold firstMatchWithCount at hv
    rw [Option.map_eq_some'] at hv
    obtain ⟨e₀, hfind, hv2⟩ := hv
    obtain ⟨p₀, w₀⟩ := e₀
    subst hv2
    have he₀ : (p₀, w₀) ∈ values := List.mem_of_find?_eq_some hfind
    have hpred := List.find?_some hfind
    simp only [Bool.and_eq_true, decide_eq_true_eq, beq_iff_eq] at hpred
    rw [pickContentType_eq_pickLoop ct values hne hstrip,
      pickLoop_found (splitChar '/' ct) values none 0 0 (Or.inl rfl)
        (fun _ _ _ => Nat.zero_le _) ⟨(p₀, w₀), he₀, hpred.1, hpred.2⟩]
    unfold firstMatchWithCount
    rw [hfind]
    rfl

theorem claim_C4_witness :
    ("application/json" : String) ≠ "" ∧
    stripAfterSemicolon "application/json" = "application/json" ∧
    firstMatchWithCount (splitChar '/' "application/json")
      [("text/*", 2), ("*/*", 3), ("application/json", 1)] 0 = some 1 ∧
    pickContentType (some "application/json")
      [("text/*", 2), ("*/*", 3), ("application/json", 1)] = some 1 :=
  ⟨by decide, rfl, rfl,
    ((claim_C4 [("text/*", 2), ("*/*", 3), ("application/json", 1)]).2.2.2
      "application/json" (by decide) rfl).2.2 1 rfl⟩

/-- C10: with a non-empty parameter-free observed content type, when `m` is a
lower bound on the wildcard weight of every matching candidate (so no
strictly more specific match exists below `m`), the result is the value of
the FIRST entry matching with weight `m` in entry order — a later, equally
specific matching pattern never replaces an earlier one, a chosen candidate
being replaced only by one with strictly fewer wildcard halves. -/
theorem claim_C10 {T : Type} (values : List (String × T)) (ct : String) (m : Nat) (v : T)
    (hne : ct ≠ "") (hstrip : stripAfterSemicolon ct = ct)
    (hmin : ∀ q ∈ values, matchesPred (splitChar '/' ct) q.1 → m ≤ wildcardCount q.1)
    (hfind : firstMatchWithCount (splitChar '/' ct) values m = some v) :
    pickContentType (some ct) values = some v := by
  unfold firstMatchWithCount at hfind
  rw [Option.map_eq_some'] at hfind
  obtain ⟨e₀, hfind', hv2⟩ := hfind
  obtain ⟨p₀, w₀⟩ := e₀
  subst hv2
  have he₀ : (p₀, w₀) ∈ values := List.mem_of_find?_eq_some hfind'
  have hpred := List.find?_some hfind'
  simp only [Bool.and_eq_true, decide_eq_true_eq, beq_iff_eq] at hpred
  rw [pickContentType_eq_pickLoop ct values hne hstrip,
    pickLoop_found (splitChar '/' ct) values none 0 m (Or.inl rfl) hmin
      ⟨(p₀, w₀), he₀, hpred.1, hpred.2⟩]
  unfold firstMatchWithCount
  rw [hfind']
  rfl

theorem claim_C10_witness :
    ("text/plain" : String) ≠ "" ∧
    stripAfterSemicolon "text/plain" = "text/plain" ∧
    (∀ q ∈ [("text/*", 10), ("*/plain", 20)], matchesPred (splitChar '/' "text/plain") q.1 →
      1 ≤ wildcardCount q.1) ∧
    firstMatchWithCount (splitChar '/' "text/plain") [("text/*", 10), ("*/plain", 20)] 1 =
      some 10 ∧
    pickContentType (some "text/plain") [("text/*", 10), ("*/plain", 20)] = some 10 :=
  ⟨by decide, rfl, by decide, rfl,
    claim_C10 [("text/*", 10), ("*/plain", 20)] "text/plain" 1 10 (by decide) rfl
      (by decide) rfl⟩

/-! ## Claim about the reference resolver -/

/-- C3: a value with no `$ref` key is returned unchanged; a `$ref` that does
not start with `#` throws an unsupported-reference error; a `$ref` starting
with `#` whose JSON pointer does not resolve inside the document yields the
distinguishable "not found" result (`none`) without throwing; otherwise the
dereferenced target is returned (one level of resolution only — the target
is returned as-is even if it is itself a reference). -/
theorem claim_C3 (specDoc value : Json) :
    (value.getProp "$ref" = none → resolveReference specDoc value = Except.ok (some value)) ∧
    (∀ ref : String, value.getProp "$ref" = some (Json.str ref) →
      strLeadsWith ref "#" = false →
      resolveReference specDoc value =
        Except.error
          ("Cannot resolve external reference " ++ ref ++ " in the OpenAPI schema.")) ∧
    (∀ ref tokens, value.getProp "$ref" = some (Json.str ref) →
      strLeadsWith ref "#" = true →
      ptrParse (strDropOne ref) = Except.ok tokens →
      (∀ msg, ptrEval tokens specDoc = Except.error msg →
        resolveReference specDoc value = Except.ok none) ∧
      (∀ target, ptrEval tokens specDoc = Except.ok target →
        resolveReference specDoc value = Except.ok (some target))) := by
  refine ⟨?_, ?_, ?_⟩
  · intro h
    simp [resolveReference, h]
  · intro ref href hlead
    simp [resolveReference, href, hlead]
  · intro ref tokens href hlead hparse
    refine ⟨?_, ?_⟩
    · intro msg heval
      simp [resolveReference, href, hlead, hparse, heval]
    · intro target heval
      simp [resolveReference, href, hlead, hparse, heval]

theorem claim_C3_witness :
    (Json.obj [("$ref", Json.str "#/components/schemas/Missing")]).getProp "$ref" =
      some (Json.str "#/components/schemas/Missing") ∧
    strLeadsWith "#/components/schemas/Missing" "#" = true ∧
    ptrParse (strDropOne "#/components/schemas/Missing") =
      Except.ok ["components", "schemas", "Missing"] ∧
    ptrEval ["components", "schemas", "Missing"] demoSpecDoc =
      Except.error ("Token Missing not found") ∧
    resolveReference demoSpecDoc (Json.obj [("$ref", Json.str "#/components/schemas/Missing")]) =
      Except.ok none :=
  ⟨rfl, rfl, rfl, rfl,
    ((claim_C3 demoSpecDoc (Json.obj [("$ref", Json.str "#/components/schemas/Missing")])).2.2
      "#/components/schemas/Missing" ["components", "schemas", "Missing"] rfl rfl rfl).1
      ("Token Missing not found") rfl⟩

/-! ## Claims about the method handler factory -/

theorem strAppendAssoc (a b c : String) : a ++ b ++ c = a ++ (b ++ c) := by
  cases a with
  | mk la =>
    cases b with
    | mk lb =>
      cases c with
      | mk lc =>
        show String.mk (la ++ lb ++ lc) = String.mk (la ++ (lb ++ lc))
        rw [List.append_assoc]

/-- C5: a successfully assembled `MethodHandler` carries the handler-wrapping
middleware list and the pre-dispatch middleware list concatenated with the
build-option defaults first and the extension-declared entries second, while
the post-dispatch list contains exactly the build-option defaults (the
extension contributes nothing to it). -/
theorem claim_C5 {C H HM EM A P : Type}
    (getMethod : C → JsKey → Option H)
    (validateExtensionData : SOCControllerMethodExtensionData C H HM EM A → Bool)
    (extensionErrorsText : String) (ajvCompile : Json → ValidateFn)
    (spec : OpenAPIObject C H HM EM A) (path method : String)
    (opts : CreateMethodHandlerOpts C H HM EM A P)
    (pathItem : PathItem C H HM EM A) (operation : OperationObject C H HM EM A)
    (extensionData : SOCControllerMethodExtensionData C H HM EM A)
    (mh : MethodHandler C H HM EM A P)
    (hp : lookupEntry (spec.paths.getD []) path = some pathItem)
    (ho : lookupEntry pathItem.operations method = some operation)
    (he : operation.socExtension = some extensionData)
    (hr : createMethodHandlerFromSpec getMethod validateExtensionData extensionErrorsText
      ajvCompile spec path method opts = Except.ok mh) :
    mh.handlerMiddleware =
      (opts.handlerMiddleware.getD []) ++ (extensionData.handlerMiddleware.getD []) ∧
    mh.preExpressMiddleware =
      (opts.preExpressMiddleware.getD []) ++ (extensionData.preExpressMiddleware.getD []) ∧
    mh.postExpressMiddleware = opts.postExpressMiddleware.getD [] := by
  simp only [createMethodHandlerFromSpec, hp, ho, he] at hr
  split at hr
  · exact Except.noConfusion hr
  · split at hr
    · exact Except.noConfusion hr
    · split at hr
      · exact Except.noConfusion hr
      · injection hr with hmh
        subst hmh
        exact ⟨rfl, rfl, rfl⟩

theorem claim_C5_witness :
    lookupEntry (demoSpec.paths.getD []) "/add" = some demoPathItem ∧
    lookupEntry demoPathItem.operations "post" = some demoOperation ∧
    demoOperation.socExtension = some demoExtData ∧
    createMethodHandlerFromSpec demoGetMethod demoValidateExt "errors" demoCompile
      demoSpec "/add" "post" demoOpts = Except.ok demoBuiltHandler ∧
    (demoBuiltHandler.handlerMiddleware =
        (demoOpts.handlerMiddleware.getD []) ++ (demoExtData.handlerMiddleware.getD []) ∧
      demoBuiltHandler.preExpressMiddleware =
        (demoOpts.preExpressMiddleware.getD []) ++ (demoExtData.preExpressMiddleware.getD []) ∧
      demoBuiltHandler.postExpressMiddleware = demoOpts.postExpressMiddleware.getD []) :=
  ⟨rfl, rfl, rfl, rfl,
    claim_C5 demoGetMethod demoValidateExt "errors" demoCompile demoSpec "/add" "post"
      demoOpts demoPathItem demoOperation demoExtData demoBuiltHandler rfl rfl rfl rfl⟩

/-- C6: `createMethodHandlerFromSpec` throws a configuration error at build
time (the construction itself fails — no request is involved) when the path
item is absent from the spec, when the operation is absent from the path
item, when the binding-metadata extension is missing from the operation, or
when the extension data fails its schema validation. -/
theorem claim_C6 {C H HM EM A P : Type}
    (getMethod : C → JsKey → Option H)
    (validateExtensionData : SOCControllerMethodExtensionData C H HM EM A → Bool)
    (extensionErrorsText : String) (ajvCompile : Json → ValidateFn)
    (spec : OpenAPIObject C H HM EM A) (path method : String)
    (opts : CreateMethodHandlerOpts C H HM EM A P)
    (h : lookupEntry (spec.paths.getD []) path = none ∨
      (∃ pathItem, lookupEntry (spec.paths.getD []) path = some pathItem ∧
        lookupEntry pathItem.operations method = none) ∨
      (∃ pathItem operation, lookupEntry (spec.paths.getD []) path = some pathItem ∧
        lookupEntry pathItem.operations method = some operation ∧
        operation.socExtension = none) ∨
      (∃ pathItem operation extensionData,
        lookupEntry (spec.paths.getD []) path = some pathItem ∧
        lookupEntry pathItem.operations method = some operation ∧
        operation.socExtension = some extensionData ∧
        validateExtensionData extensionData = false)) :
    isError (createMethodHandlerFromSpec getMethod validateExtensionData extensionErrorsText
      ajvCompile spec path method opts) = true := by
  rcases h with h1 | ⟨pathItem, h1, h2⟩ | ⟨pathItem, operation, h1, h2, h3⟩ |
    ⟨pathItem, operation, extensionData, h1, h2, h3, h4⟩
  · simp [createMethodHandlerFromSpec, h1, isError]
  · simp [createMethodHandlerFromSpec, h1, h2, isError]
  · simp [createMethodHandlerFromSpec, h1, h2, h3, isError]
  · simp [createMethodHandlerFromSpec, h1, h2, h3, h4, isError]

theorem claim_C6_witness :
    lookupEntry (demoSpecNoPaths.paths.getD []) "/add" = none ∧
    isError (createMethodHandlerFromSpec demoGetMethod demoValidateExt "errors" demoCompile
      demoSpecNoPaths "/add" "post"
      (⟨none, none, none, none, none, none⟩ :
        CreateMethodHandlerOpts String String Nat Nat Nat Nat)) = true :=
  ⟨rfl,
    claim_C6 demoGetMethod demoValidateExt "errors" demoCompile demoSpecNoPaths "/add" "post"
      ⟨none, none, none, none, none, none⟩ (Or.inl rfl)⟩

/-- C7: the default controller resolver accepts a concrete object and throws
a descriptive configuration error mentioning the operation id, the HTTP
method and the path whenever the controller reference is not an object; the
default handler resolver looks a string/symbol key up as a method on the
resolved controller, returning the found function, and when the lookup does
not yield a callable it throws a configuration error naming the operation
and the candidate key. -/
theorem claim_C7 {C H HM EM A : Type} (ctx : OperationContext C H HM EM A)
    (getMethod : C → JsKey → Option H) :
    (∀ k : JsKey, ∃ msg,
      defaultResolveController (ControllerRef.keyRef k) ctx =
        (Except.error msg : Except String C) ∧
      mentions msg (operationIdString ctx.operation) ∧
      mentions msg ctx.method ∧ mentions msg ctx.path) ∧
    (∀ c : C, defaultResolveController (ControllerRef.objRef c) ctx = Except.ok c) ∧
    (∀ (c : C) (k : JsKey) (f : H), getMethod c k = some f →
      defaultResolveHandler getMethod c (HandlerRef.keyRef k) ctx = Except.ok f) ∧
    (∀ (c : C) (k : JsKey), getMethod c k = none →
      ∃ msg, defaultResolveHandler getMethod c (HandlerRef.keyRef k) ctx = Except.error msg ∧
        mentions msg (operationIdString ctx.operation) ∧ mentions msg k.jsString) := by
  refine ⟨?_, ?_, ?_, ?_⟩
  · intro k
    refine ⟨_, rfl, ?_, ?_, ?_⟩
    · exact ⟨"Controller for operation ",
        " handling \"" ++ ctx.method ++ " " ++ ctx.path ++ "\" is not an object (got " ++
          k.jsString ++ ").",
        by simp [strAppendAssoc]⟩
    · exact ⟨"Controller for operation " ++ operationIdString ctx.operation ++ " handling \"",
        " " ++ ctx.path ++ "\" is not an object (got " ++ k.jsString ++ ").",
        by simp [strAppendAssoc]⟩
    · exact ⟨"Controller for operation " ++ operationIdString ctx.operation ++ " handling \"" ++
          ctx.method ++ " ",
        "\" is not an object (got " ++ k.jsString ++ ").",
        by simp [strAppendAssoc]⟩
  · intro c
    rfl
  · intro c k f hf
    simp [defaultResolveHandler, hf]
  · intro c k hnone
    refine ⟨"Handler for operation \"" ++ operationIdString ctx.operation ++
        "\" handling \"" ++ k.jsString ++ " " ++ ctx.path ++
        "\" is not a function (got " ++ k.jsString ++ ").",
      by simp [defaultResolveHandler, hnone], ?_, ?_⟩
    · exact ⟨"Handler for operation \"",
        "\" handling \"" ++ k.jsString ++ " " ++ ctx.path ++ "\" is not a function (got " ++
          k.jsString ++ ").",
        by simp [strAppendAssoc]⟩
    · exact ⟨"Handler for operation \"" ++ operationIdString ctx.operation ++ "\" handling \"",
        " " ++ ctx.path ++ "\" is not a function (got " ++ k.jsString ++ ").",
        by simp [strAppendAssoc]⟩

theorem claim_C7_witness :
    demoGetMethod "controller" (JsKey.strKey "doThing") = some "boundHandler" ∧
    defaultResolveHandler demoGetMethod "controller"
      (HandlerRef.keyRef (JsKey.strKey "doThing")) demoCtx = Except.ok "boundHandler" :=
  ⟨rfl, (claim_C7 demoCtx demoGetMethod).2.2.1 "controller" (JsKey.strKey "doThing")
    "boundHandler" rfl⟩

/-! ## Claim about decorator argument registration -/

theorem argAt_jsArraySet_self {A : Type} :
    ∀ (l : List (Option A)) (i : Nat) (a : A), argAt (jsArraySet l i a) i = some a
  | [], 0, _ => rfl
  | [], Nat.succ n, a => argAt_jsArraySet_self [] n a
  | _ :: _, 0, _ => rfl
  | _ :: xs, Nat.succ n, a => argAt_jsArraySet_self xs n a

theorem argAt_jsArraySet_other {A : Type} :
    ∀ (l : List (Option A)) (i j : Nat) (a : A), j ≠ i →
      argAt (jsArraySet l i a) j = argAt l j
  | [], 0, 0, _, h => absurd rfl h
  | [], 0, Nat.succ _, _, _ => rfl
  | [], Nat.succ _, 0, _, _ => rfl
  | [], Nat.succ n, Nat.succ m, a, h =>
    argAt_jsArraySet_other [] n m a (fun hh => h (by rw [hh]))
  | _ :: _, 0, 0, _, h => absurd rfl h
  | _ :: _, 0, Nat.succ _, _, _ => rfl
  | _ :: _, Nat.succ _, 0, _, _ => rfl
  | _ :: xs, Nat.succ n, Nat.succ m, a, h =>
    argAt_jsArraySet_other xs n m a (fun hh => h (by rw [hh]))

/-- C9: `setMethodParameterType` throws a build-time error when a typed
descriptor is already present at the parameter index; otherwise it records
the descriptor at exactly that index, leaves the descriptors at all other
indices unchanged, and keeps the remaining metadata members — so each handler
parameter position carries at most one argument descriptor, at the position
matching the handler's positional parameter order. -/
theorem claim_C9 {A R : Type} (propertyKey : String) (parameterIndex : Nat) (arg : A)
    (previous : SOCMethodMetadata A R) :
    ((argAt (previous.args.getD []) parameterIndex).isSome = true →
      isError (setMethodParameterType propertyKey parameterIndex arg previous) = true) ∧
    (argAt (previous.args.getD []) parameterIndex = none →
      setMethodParameterType propertyKey parameterIndex arg previous =
        Except.ok
          ⟨some (jsArraySet (previous.args.getD []) parameterIndex arg), previous.rest⟩ ∧
      argAt (jsArraySet (previous.args.getD []) parameterIndex arg) parameterIndex =
        some arg ∧
      ∀ j, j ≠ parameterIndex →
        argAt (jsArraySet (previous.args.getD []) parameterIndex arg) j =
          argAt (previous.args.getD []) j) := by
  constructor
  · intro h
    simp [setMethodParameterType, h, isError]
  · intro h
    have h' : (argAt (previous.args.getD []) parameterIndex).isSome = false := by
      rw [h]
      rfl
    refine ⟨?_, argAt_jsArraySet_self _ _ _,
      fun j hj => argAt_jsArraySet_other _ _ _ _ hj⟩
    simp [setMethodParameterType, h']

theorem claim_C9_witness :
    (argAt ((SOCMethodMetadata.mk (some [some 5]) (0 : Nat)).args.getD []) 0).isSome = true ∧
    isError (setMethodParameterType "handlerMethod" 0 (7 : Nat)
      (SOCMethodMetadata.mk (some [some 5]) (0 : Nat))) = true :=
  ⟨rfl, (claim_C9 "handlerMethod" 0 7 (SOCMethodMetadata.mk (some [some 5]) 0)).1 rfl⟩

end SOC
